import Mathlib

/-!
Shallow embedding of the Singlelab protocol-gateway core
(`communication/parser.py`, `communication/unified_listener.py`,
`communication/ASTMListener.py`, `core/normalized_result.py`,
`core/machine_manager.py`, `db/db_handler.py`) together with theorems
about the embedded definitions.

Python strings are modelled as lists of Unicode code points (`List Nat`);
byte strings are likewise `List Nat` with every element below 256.  The
character-class predicates (`isalpha`, `isdigit`, whitespace, case mapping)
are modelled with their ASCII semantics, which is the character repertoire
the protocols in this repository exchange.  `bytes.decode(errors="ignore")`
is modelled as the identity on the decoded code-point sequence.
-/

/-- A Python `str` (or `bytes`): a sequence of code points / byte values. -/
abbrev PyStr := List Nat

/-- Code points of a Lean string literal, used to write concrete inputs. -/
def pystr (s : String) : PyStr := s.data.map Char.toNat

/-- ASCII uppercase letter (`A`-`Z`). -/
def isUpperB (c : Nat) : Bool := 65 ≤ c && c ≤ 90

/-- ASCII lowercase letter (`a`-`z`). -/
def isLowerB (c : Nat) : Bool := 97 ≤ c && c ≤ 122

/-- Python `str.isalpha` restricted to ASCII. -/
def isAlphaB (c : Nat) : Bool := isUpperB c || isLowerB c

/-- Python `str.isdigit` restricted to ASCII (`0`-`9`). -/
def isDigitB (c : Nat) : Bool := 48 ≤ c && c ≤ 57

/-- The character class `[A-Za-z0-9]` of the trimming regex in `parser.py`. -/
def isAlnumB (c : Nat) : Bool := isAlphaB c || isDigitB c

/-- Python `str.strip` whitespace (ASCII part: space, TAB, LF, VT, FF, CR). -/
def isSpaceB (c : Nat) : Bool :=
  c = 32 || c = 9 || c = 10 || c = 11 || c = 12 || c = 13

/-- Python `str.lower` on one code point (ASCII case mapping). -/
def toLowerN (c : Nat) : Nat := if 65 ≤ c ∧ c ≤ 90 then c + 32 else c

/-- Python `str.upper` on one code point (ASCII case mapping). -/
def toUpperN (c : Nat) : Nat := if 97 ≤ c ∧ c ≤ 122 then c - 32 else c

/-- Python `str.lower`. -/
def pylower (s : PyStr) : PyStr := s.map toLowerN

/-- Python `str.upper`. -/
def pyupper (s : PyStr) : PyStr := s.map toUpperN

/-- Drop elements satisfying `p` from the right end of a list. -/
def dropRightWhile (p : Nat → Bool) (s : PyStr) : PyStr :=
  (s.reverse.dropWhile p).reverse

/-- Python `str.strip()` (no argument: strip whitespace from both ends). -/
def pystrip (s : PyStr) : PyStr :=
  dropRightWhile isSpaceB (s.dropWhile isSpaceB)

/-- Python `str.strip(ch)`: strip one given character from both ends. -/
def pystripChar (ch : Nat) (s : PyStr) : PyStr :=
  dropRightWhile (fun c => c = ch) (s.dropWhile (fun c => c = ch))

/-- Python `str.split(sep)` generalised over a separator predicate:
splits at every separator, keeping empty pieces (`"".split(sep) = [""]`). -/
def splitOnPred (p : Nat → Bool) : PyStr → List PyStr
  | [] => [[]]
  | c :: rest =>
    match splitOnPred p rest with
    | [] => if p c then [[], []] else [[c]]
    | g :: gs => if p c then [] :: g :: gs else (c :: g) :: gs

/-- Python `str.split(sep)` for a one-character separator. -/
def splitOn (sep : Nat) (s : PyStr) : List PyStr :=
  splitOnPred (fun c => c = sep) s

/-- Python no-argument `str.split()`: split on whitespace runs, dropping
empty pieces. -/
def pySplitWs (s : PyStr) : List PyStr :=
  (splitOnPred isSpaceB s).filter (fun p => p ≠ [])

/-- Trim the regex `^[^A-Za-z0-9]+|[^A-Za-z0-9]+$` of `parser.py`:
remove leading and trailing non-alphanumeric runs. -/
def trimNonAlnum (s : PyStr) : PyStr :=
  dropRightWhile (fun c => ¬ isAlnumB c) (s.dropWhile (fun c => ¬ isAlnumB c))

/-- Embeds `parser._normalize_code`: split the raw code on `^`, keep the
non-empty components, return the first whose trimmed form contains a letter,
falling back to the last component; lowercase and trim the result. -/
def _normalize_code (raw_code : PyStr) : PyStr :=
  if raw_code = [] then []
  else
    let parts := (splitOn 94 raw_code).filter (fun p => p ≠ [])
    if parts = [] then pylower (pystrip (trimNonAlnum raw_code))
    else
      match parts.find? (fun p => (trimNonAlnum p).any isAlphaB) with
      | some part => pylower (pystrip (trimNonAlnum part))
      | none => pylower (pystrip (trimNonAlnum (parts.getLastD [])))

/-- Embeds `parser._strip_controls`: remove STX, ETX, EOT, ENQ and FS bytes. -/
def _strip_controls (message : PyStr) : PyStr :=
  message.filter (fun c => ¬ (c = 2 ∨ c = 3 ∨ c = 4 ∨ c = 5 ∨ c = 28))

/-- Embeds the frame-sequence stripper of `parser.py`: drop a leading run
of digits (the ASTM frame sequence number). -/
def _strip_frame_prefix (segment : PyStr) : PyStr :=
  segment.dropWhile isDigitB

/-- Python `str.splitlines`: split at line-break code points, where CR LF
counts as one break and a trailing break yields no extra empty line. -/
def isLineBreakB (c : Nat) : Bool :=
  c = 10 || c = 11 || c = 12 || c = 13 || c = 28 || c = 29 || c = 30 ||
  c = 133 || c = 8232 || c = 8233

/-- Python `str.splitlines`. -/
def splitlines : PyStr → List PyStr
  | [] => []
  | 13 :: 10 :: rest => [] :: splitlines rest
  | c :: rest =>
    if isLineBreakB c then [] :: splitlines rest
    else
      match splitlines rest with
      | [] => [[c]]
      | g :: gs => (c :: g) :: gs

/-- The segment-type tokens `H| P| O| R| L| C| M|` checked by
`detect_protocol` and by the `is_astm` test in `parse_astm`. -/
def astmTokens : List PyStr :=
  [pystr "H|", pystr "P|", pystr "O|", pystr "R|", pystr "L|", pystr "C|", pystr "M|"]

/-- The protocol classification returned by `parser.detect_protocol`
(the source returns the strings "HL7", "ASTM", "UNKNOWN"). -/
inductive Protocol where
  | HL7
  | ASTM
  | UNKNOWN
deriving DecidableEq, Repr

/-- The cleaned text computed at the top of `detect_protocol`:
control bytes stripped, leading VT removed, whitespace stripped. -/
def detectCleaned (text : PyStr) : PyStr :=
  pystrip (( _strip_controls text).dropWhile (fun c => c = 11))

/-- One line of `detect_protocol`'s loop starts an ASTM segment after
stripping whitespace and the frame-sequence digit prefix. -/
def detectLineIsAstm (line : PyStr) : Bool :=
  astmTokens.any (fun t => t.isPrefixOf ( _strip_frame_prefix (pystrip line)))

/-- Embeds `parser.detect_protocol` on the decoded text. -/
def detect_protocol (text : PyStr) : Protocol :=
  let cleaned := detectCleaned text
  if (pystr "MSH|").isPrefixOf cleaned then Protocol.HL7
  else if (splitlines cleaned).any detectLineIsAstm then Protocol.ASTM
  else Protocol.UNKNOWN

/-- Embeds `core.normalized_result.NormalizedResult`.  The Python dataclass
defaults `status` to `"Y"`; the `updated_at` timestamp field is environment
dependent (`datetime.now()`) and is not part of the model. -/
structure NormalizedResult where
  sample_id : PyStr
  parameter_code : PyStr
  result : PyStr
  machine_id : PyStr
  status : PyStr := pystr "Y"
deriving DecidableEq, Repr

/-- A device ParamMap: a Python dict from normalized instrument code to
canonical code, modelled as an association list with unique keys in
insertion order. -/
abbrev ParamMap := List (PyStr × PyStr)

/-- Python `dict.get`. -/
def dictGet (m : ParamMap) (key : PyStr) : Option PyStr :=
  match m with
  | [] => none
  | (k, v) :: rest => if k = key then some v else dictGet rest key

/-- The shared result-emission step of `parse_hl7` and `parse_astm`:
`parameter_code = param_map.get(_normalize_code(raw_code))` followed by
`if parameter_code and sample_id and result: results.append(...)`. -/
def emitResult (machine_id : PyStr) (param_map : ParamMap)
    (sample_id raw_code result : PyStr) : List NormalizedResult :=
  match dictGet param_map ( _normalize_code raw_code) with
  | some pc =>
    if pc ≠ [] ∧ sample_id ≠ [] ∧ result ≠ [] then
      [{ machine_id := machine_id, sample_id := sample_id,
         parameter_code := pc, result := result }]
    else []
  | none => []

/-- The loop body of `parser.parse_hl7` over the CR-separated lines,
threading the current `sample_id`. -/
def hl7Lines (machine_id : PyStr) (param_map : ParamMap) :
    List PyStr → PyStr → List NormalizedResult
  | [], _ => []
  | line :: rest, sample_id =>
    let fields := splitOn 124 line
    let sid1 :=
      if (pystr "PID").isPrefixOf line ∧ fields.length > 3 then
        (let s := pystrip (fields.getD 3 []); if s ≠ [] then s else sample_id)
      else sample_id
    let sid2 :=
      if (pystr "OBR").isPrefixOf line ∧ fields.length > 3 ∧ sid1 = [] then
        (let s := pystrip (fields.getD 2 []); if s ≠ [] then s else sid1)
      else sid1
    let emitted :=
      if (pystr "OBX").isPrefixOf line ∧ fields.length ≥ 6 then
        emitResult machine_id param_map sid2
          (pystrip (fields.getD 3 [])) (pystrip (fields.getD 5 []))
      else []
    emitted ++ hl7Lines machine_id param_map rest sid2

/-- Embeds `parser.parse_hl7` on the decoded text. -/
def parse_hl7 (text : PyStr) (machine_id : PyStr) (param_map : ParamMap) :
    List NormalizedResult :=
  hl7Lines machine_id param_map (splitOn 13 text) []

/-- The regex split `re.split(r'[\r\n]+', ...)` of `parse_astm`:
pieces separated by maximal runs of CR/LF.  The `sep` flag records whether
the previous character belonged to a separator run. -/
def reSplitNl (sep : Bool) : PyStr → List PyStr
  | [] => [[]]
  | c :: rest =>
    if c = 13 ∨ c = 10 then
      if sep then reSplitNl true rest
      else [] :: reSplitNl true rest
    else
      match reSplitNl false rest with
      | [] => [[c]]
      | g :: gs => (c :: g) :: gs

/-- `re.split(r'[\r\n]+', cleaned)` as used by `parse_astm`. -/
def reSplitNewlines (s : PyStr) : List PyStr := reSplitNl false s

/-- The loop body of `parser.parse_astm` over the split records, threading
the current `sample_id`. -/
def astmRecords (machine_id : PyStr) (param_map : ParamMap) :
    List PyStr → PyStr → List NormalizedResult
  | [], _ => []
  | record :: rest, sample_id =>
    let line := _strip_frame_prefix (pystrip record)
    if line = [] then astmRecords machine_id param_map rest sample_id
    else
      let fields := splitOn 124 line
      let sid1 :=
        if (pystr "O").isPrefixOf line ∧ fields.length > 2 then
          pystrip (fields.getD 2 [])
        else sample_id
      let emitted :=
        if (pystr "R").isPrefixOf line ∧ fields.length ≥ 4 then
          let raw_code :=
            if fields.length > 2 then pystrip (fields.getD 2 [])
            else pystrip (fields.getD 1 [])
          emitResult machine_id param_map sid1 raw_code (pystrip (fields.getD 3 []))
        else []
      emitted ++ astmRecords machine_id param_map rest sid1

/-- The remainder of the string after the first occurrence of `sep`,
if any: the last element of Python's `s.split(sep, 1)`. -/
def afterFirstSep (sep : Nat) : PyStr → Option PyStr
  | [] => none
  | c :: rest => if c = sep then some rest else afterFirstSep sep rest

/-- Extraction of the sample id in `_parse_plain_text`:
`line.split(":", 1)[-1].strip().split()[0].strip("-")`.  When the text after
the colon has no tokens the Python expression raises `IndexError`; the
embedding returns the empty string there (no result is emitted either way,
since an empty `sample_id` never passes the emission gate). -/
def plainSampleId (line : PyStr) : PyStr :=
  let after := (afterFirstSep 58 line).getD line
  pystripChar 45 ((pySplitWs (pystrip after)).getD 0 [])

/-- First pass of `_parse_plain_text`: skip DATE/NO. headers, record the
last SAMPLEID/ID line, and buffer every other non-empty line. -/
def plainScan : List PyStr → PyStr → List PyStr → PyStr × List PyStr
  | [], sample_id, buffer => (sample_id, buffer)
  | record :: rest, sample_id, buffer =>
    let line := pystrip record
    if line = [] then plainScan rest sample_id buffer
    else
      let upper := pyupper line
      if (pystr "DATE").isPrefixOf upper ∨ (pystr "NO.").isPrefixOf upper then
        plainScan rest sample_id buffer
      else if (pystr "SAMPLEID").isPrefixOf upper then
        plainScan rest (plainSampleId line) buffer
      else if (pystr "ID:").isPrefixOf upper then
        plainScan rest (plainSampleId line) buffer
      else plainScan rest sample_id (buffer ++ [line])

/-- Second pass of `_parse_plain_text`: split each buffered line into a code
token and the joined value tokens, and emit the mapped results. -/
def plainEmit (machine_id : PyStr) (param_map : ParamMap) (sample_id : PyStr) :
    List PyStr → List NormalizedResult
  | [] => []
  | line :: rest =>
    let parts := pySplitWs line
    if parts.length < 2 then plainEmit machine_id param_map sample_id rest
    else
      let code := pystrip (pystripChar 58 (parts.getD 0 []))
      let value := pystrip ((parts.drop 1).foldr
        (fun tok acc => if acc = [] then tok else tok ++ [32] ++ acc) [])
      if code = [] ∨ value = [] then plainEmit machine_id param_map sample_id rest
      else
        match dictGet param_map ( _normalize_code code) with
        | some pc =>
          if pc ≠ [] then
            { machine_id := machine_id, sample_id := sample_id,
              parameter_code := pc, result := value } ::
              plainEmit machine_id param_map sample_id rest
          else plainEmit machine_id param_map sample_id rest
        | none => plainEmit machine_id param_map sample_id rest

/-- Embeds `parser._parse_plain_text`. -/
def _parse_plain_text (records : List PyStr) (machine_id : PyStr)
    (param_map : ParamMap) : List NormalizedResult :=
  let scanned := plainScan records [] []
  if scanned.1 = [] then []
  else plainEmit machine_id param_map scanned.1 scanned.2

/-- Embeds `parser.parse_astm` on the decoded text: strip control bytes,
split on newline runs, dispatch to the plain-text fallback when no record
starts with a segment token. -/
def parse_astm (text : PyStr) (machine_id : PyStr) (param_map : ParamMap) :
    List NormalizedResult :=
  let records := reSplitNewlines ( _strip_controls text)
  let is_astm := records.any
    (fun record => astmTokens.any (fun t => t.isPrefixOf (pystrip record)))
  if is_astm then astmRecords machine_id param_map records []
  else _parse_plain_text records machine_id param_map

/-- Embeds `parser.parse_message`: classify, then dispatch. -/
def parse_message (text : PyStr) (machine_id : PyStr) (param_map : ParamMap) :
    List NormalizedResult :=
  match detect_protocol text with
  | Protocol.HL7 => parse_hl7 text machine_id param_map
  | Protocol.ASTM => parse_astm text machine_id param_map
  | Protocol.UNKNOWN => []

/-- Sum of a byte sequence, as in `sum(data)` of `_astm_checksum`. -/
def sumBytes (data : List Nat) : Nat := data.foldl (· + ·) 0

/-- One uppercase hexadecimal digit (`0`-`9`, `A`-`F`) as a byte. -/
def hexDigitUpper (n : Nat) : Nat := if n < 10 then 48 + n else 55 + n

/-- Python `f"{total:02X}"` for `total < 256`: two uppercase hex digits. -/
def hexUpper2 (n : Nat) : List Nat := [hexDigitUpper (n / 16), hexDigitUpper (n % 16)]

/-- Embeds `UnifiedListener._astm_checksum`: sum of the bytes modulo 256,
rendered as two uppercase hexadecimal digit bytes. -/
def _astm_checksum (data : List Nat) : List Nat := hexUpper2 (sumBytes data % 256)

/-- Python `str.encode("ascii", errors="ignore")`: keep the code points
below 128. -/
def asciiEncode (s : PyStr) : List Nat := s.filter (fun c => c < 128)

/-- The frame loop of `UnifiedListener._build_astm_frames`, carrying the
running sequence number: take chunks of 240 characters, prefix the digit
`str(seq % 8)`, and wrap as `STX body ETX checksum CR LF` where the
checksum is computed over the body (sequence digit plus chunk) only. -/
def buildFramesFrom (seq : Nat) (text : PyStr) : List (List Nat) :=
  if h : text = [] then []
  else
    let chunk := text.take 240
    let rest := text.drop 240
    let body := asciiEncode ((48 + seq % 8) :: chunk)
    ([2] ++ body ++ [3] ++ _astm_checksum body ++ [13, 10]) ::
      buildFramesFrom (seq + 1) rest
termination_by text.length
decreasing_by
  simp only [List.length_drop]
  cases text with
  | nil => exact absurd rfl h
  | cons a t => simp only [List.length_cons]; omega

/-- Embeds `UnifiedListener._build_astm_frames` (sequence starts at 1). -/
def _build_astm_frames (payload : PyStr) : List (List Nat) :=
  buildFramesFrom 1 payload

/-- One row fetched from the `MachineParam` table in
`DBHandler.get_param_map`: `row.get("param_code")` and `row.get("lis_code")`
may each be absent. -/
structure MachineParamRow where
  param_code : Option PyStr
  lis_code : Option PyStr

/-- Key membership in a Python dict modelled as an association list. -/
def dictContains {α : Type} (m : List (PyStr × α)) (k : PyStr) : Bool :=
  m.any (fun kv => kv.1 = k)

/-- Python dict assignment `m[k] = v`: overwrite in place when the key is
present, append otherwise (insertion-ordered, unique keys). -/
def dictInsert {α : Type} (m : List (PyStr × α)) (k : PyStr) (v : α) :
    List (PyStr × α) :=
  if dictContains m k then m.map (fun kv => if kv.1 = k then (k, v) else kv)
  else m ++ [(k, v)]

/-- The mapping-construction loop of `DBHandler.get_param_map`:
`mapping[key.lower()] = val` for every row with non-empty stripped key and
value. -/
def buildMapping : List MachineParamRow → ParamMap → ParamMap
  | [], m => m
  | row :: rest, m =>
    let key := pystrip (row.param_code.getD [])
    let val := pystrip (row.lis_code.getD [])
    if key = [] ∨ val = [] then buildMapping rest m
    else buildMapping rest (dictInsert m (pylower key) val)

/-- Embeds the local `_score` of `DBHandler.get_param_map`: count the keys
that are non-empty, strictly alphanumeric and at most 5 characters long. -/
def _score (keys : List PyStr) : Nat :=
  keys.foldl
    (fun acc k => if k ≠ [] ∧ k.all isAlnumB ∧ k.length ≤ 5 then acc + 1 else acc) 0

/-- The inverse-map comprehension of `get_param_map`:
`{value.lower(): key for key, value in mapping.items() if value}`. -/
def buildSwapped : ParamMap → ParamMap → ParamMap
  | [], acc => acc
  | (k, v) :: rest, acc =>
    if v ≠ [] then buildSwapped rest (dictInsert acc (pylower v) k)
    else buildSwapped rest acc

/-- The inverse candidate map of `get_param_map`. -/
def swappedOf (m : ParamMap) : ParamMap := buildSwapped m []

/-- Embeds the mapping-direction heuristic of `DBHandler.get_param_map`
(the part after the rows are fetched): build the forward map, build the
inverse map, and return the inverse when it is non-empty and scores
strictly higher. -/
def get_param_map (rows : List MachineParamRow) : ParamMap :=
  let mapping := buildMapping rows []
  let swapped := swappedOf mapping
  if swapped ≠ [] ∧ _score (swapped.map Prod.fst) > _score (mapping.map Prod.fst) then
    swapped
  else mapping

/-- Embeds the `MachineManager` registry state: the configured record names,
the `active_listeners` dict (listener objects modelled by opaque numeric
handles drawn from `next_handle`), and the `listener_status` dict. -/
structure MMState where
  machine_records : List PyStr
  active_listeners : List (PyStr × Nat)
  listener_status : List (PyStr × PyStr)
  next_handle : Nat
deriving DecidableEq, Repr

/-- Embeds `MachineManager.start_machine`.  `startOk` stands for the outcome
of the `listener.start()` call guarded by `try/except`; configuration
massaging (`_prepare_listener_config`, `_resolve_transport`) does not touch
the registry and is elided.  Status callbacks fired later from the listener
thread are separate transitions, not part of this synchronous step.
Returns the `success` flag of the result dict and the new state. -/
def start_machine (st : MMState) (name : PyStr) (startOk : Bool) :
    Bool × MMState :=
  if ¬ st.machine_records.any (fun n => n = name) then (false, st)
  else if dictContains st.active_listeners name then (true, st)
  else
    let st1 : MMState := { st with
      listener_status := dictInsert st.listener_status name (pystr "Starting"),
      active_listeners := st.active_listeners ++ [(name, st.next_handle)],
      next_handle := st.next_handle + 1 }
    if startOk then (true, st1)
    else
      (false, { st1 with
        active_listeners := st1.active_listeners.filter (fun kv => ¬ kv.1 = name),
        listener_status := dictInsert st1.listener_status name (pystr "Stopped") })

/-- Embeds `MachineManager.stop_machine`.  `stopOk` stands for the outcome of
`listener.stop()`; the `finally` block pops the listener and marks the
status `Stopped` in either case. -/
def stop_machine (st : MMState) (name : PyStr) (stopOk : Bool) :
    Bool × MMState :=
  if ¬ dictContains st.active_listeners name then (false, st)
  else
    (stopOk, { st with
      active_listeners := st.active_listeners.filter (fun kv => ¬ kv.1 = name),
      listener_status := dictInsert st.listener_status name (pystr "Stopped") })

/-- Number of sessions registered under a device name. -/
def countKey {α : Type} (l : List (PyStr × α)) (k : PyStr) : Nat :=
  (l.filter (fun kv => kv.1 = k)).length

/-- Frame layout asserted by the amended outbound-frame property: STX,
sequence-digit byte, ASCII-encoded chunk, ETX, two uppercase hex digits of
the sum of the sequence digit and the chunk bytes modulo 256, CR LF. -/
def claimFrame (d : Nat) (chunk : PyStr) : List Nat :=
  [2, d] ++ asciiEncode chunk ++ [3] ++
    hexUpper2 ((d + sumBytes (asciiEncode chunk)) % 256) ++ [13, 10]

/-- Modelled from the spec's words for comparison: the same frame layout
but with the checksum summing the sequence digit, the chunk bytes and the
ETX byte (`0x03`), as the outbound-frame sentence of the spec states. -/
def specFrame (d : Nat) (chunk : PyStr) : List Nat :=
  [2, d] ++ asciiEncode chunk ++ [3] ++
    hexUpper2 ((d + sumBytes (asciiEncode chunk) + 3) % 256) ++ [13, 10]

/-- The emission invariant of the parsers: a result carries a non-empty
sample id, a non-empty result string, and a parameter code that is the
value of a successful ParamMap lookup. -/
def ResultOk (param_map : ParamMap) (r : NormalizedResult) : Prop :=
  r.sample_id ≠ [] ∧ r.result ≠ [] ∧
    ∃ key, dictGet param_map key = some r.parameter_code

/-- Shape of every non-empty string returned by `_normalize_code`: free of
the caret delimiter, alphanumeric at both ends, and fixed by lowercasing. -/
def NormOutput (y : PyStr) : Prop :=
  (∀ c ∈ y, c ≠ 94) ∧
  (∀ c, y.head? = some c → isAlnumB c = true) ∧
  (∀ c, y.getLast? = some c → isAlnumB c = true) ∧
  (∀ c ∈ y, toLowerN c = c)

/-- C1 (counterexample): the spec's segment-framed end-to-end scenario fails
on the code.  With the lines `O|1|778||WBC` and `R|1|778|5.6` the parser
takes the R record's code field at index 2, which is `778`; `778`
normalizes to itself and is absent from the ParamMap `{"wbc": "WBC_LIS"}`,
so no result at all is produced, not the claimed single result. -/
theorem C1_counterexample :
    parse_astm (pystr "O|1|778||WBC\rR|1|778|5.6") (pystr "M1")
        [(pystr "wbc", pystr "WBC_LIS")] ≠
      [{ sample_id := pystr "778", parameter_code := pystr "WBC_LIS",
         result := pystr "5.6", machine_id := pystr "M1" }] := by
  decide

/-- C1 (amended): on the message `O|1|778||WBC` then `R|1|778|5.6` with
ParamMap `{"wbc": "WBC_LIS"}` the parser yields no result, because the R
record's code field (index 2) holds the unmapped string `778`; when the
code is placed in that field — `O|1|778||WBC` then `R|1|WBC|5.6` — the
parser yields exactly one NormalizedResult with sample_id `778`,
parameter_code `WBC_LIS` and result `5.6`. -/
theorem C1_astm_scenario :
    parse_astm (pystr "O|1|778||WBC\rR|1|778|5.6") (pystr "M1")
        [(pystr "wbc", pystr "WBC_LIS")] = [] ∧
    parse_astm (pystr "O|1|778||WBC\rR|1|WBC|5.6") (pystr "M1")
        [(pystr "wbc", pystr "WBC_LIS")] =
      [{ sample_id := pystr "778", parameter_code := pystr "WBC_LIS",
         result := pystr "5.6", machine_id := pystr "M1" }] := by
  decide

/-- C7 (counterexample): a NormalizedResult built without an explicit
status does not carry the status `"verified"`. -/
theorem C7_counterexample :
    ({ sample_id := pystr "778", parameter_code := pystr "WBC_LIS",
       result := pystr "5.6", machine_id := pystr "M1" } :
        NormalizedResult).status ≠ pystr "verified" := by
  decide

/-- C7 (amended): every NormalizedResult created without an explicit status
carries the dataclass default status `"Y"`. -/
theorem C7_default_status :
    ∀ sid pc res mid : PyStr,
      ({ sample_id := sid, parameter_code := pc, result := res,
         machine_id := mid } : NormalizedResult).status = pystr "Y" := by
  intro sid pc res mid
  rfl

/-- C9: stopping a device with no active session returns failure and
leaves the whole registry state — in particular the active-session set —
exactly as it was. -/
theorem C9_stop_inactive :
    ∀ (st : MMState) (name : PyStr) (stopOk : Bool),
      dictContains st.active_listeners name = false →
      stop_machine st name stopOk = (false, st) := by
  intro st name stopOk h
  unfold stop_machine
  rw [h]
  simp

/-- Witness for C9 at a concrete state with no active session. -/
theorem C9_stop_inactive_witness :
    stop_machine ⟨[pystr "dev1"], [], [], 0⟩ (pystr "dev1") true =
      (false, ⟨[pystr "dev1"], [], [], 0⟩) :=
  C9_stop_inactive ⟨[pystr "dev1"], [], [], 0⟩ (pystr "dev1") true (by decide)

/-- C6: the ParamMap heuristic returns the inverse map exactly when the
inverse map's key score strictly exceeds the forward map's key score, and
the forward map otherwise.  (The source's extra non-emptiness test on the
inverse map is redundant: an empty inverse map scores 0, which can never
strictly exceed the forward score.) -/
theorem C6_param_map_direction :
    ∀ rows : List MachineParamRow,
      get_param_map rows =
        if _score ((swappedOf (buildMapping rows [])).map Prod.fst) >
            _score ((buildMapping rows []).map Prod.fst) then
          swappedOf (buildMapping rows [])
        else buildMapping rows [] := by
  intro rows
  simp only [get_param_map]
  by_cases hsw : swappedOf (buildMapping rows []) = []
  · rw [hsw]
    have h0 : _score (([] : ParamMap).map Prod.fst) = 0 := rfl
    rw [h0]
    rw [if_neg (fun hc => hc.1 rfl), if_neg (by omega)]
  · by_cases hgt : _score ((swappedOf (buildMapping rows [])).map Prod.fst) >
        _score ((buildMapping rows []).map Prod.fst)
    · rw [if_pos ⟨hsw, hgt⟩, if_pos hgt]
    · rw [if_neg (fun hc => hgt hc.2), if_neg hgt]

theorem countKey_append {α : Type} (l1 l2 : List (PyStr × α)) (k : PyStr) :
    countKey (l1 ++ l2) k = countKey l1 k + countKey l2 k := by
  simp [countKey, List.filter_append]

theorem countKey_eq_zero {α : Type} (l : List (PyStr × α)) (k : PyStr)
    (h : dictContains l k = false) : countKey l k = 0 := by
  induction l with
  | nil => rfl
  | cons kv rest ih =>
    rw [dictContains, List.any_cons, Bool.or_eq_false_iff] at h
    rw [countKey, List.filter_cons, if_neg (by simp only [h.1]; exact fun hc => Bool.noConfusion hc)]
    exact ih h.2

theorem countKey_eq_one_of_nodup {α : Type} (l : List (PyStr × α)) (k : PyStr)
    (hn : (l.map Prod.fst).Nodup) (hc : dictContains l k = true) :
    countKey l k = 1 := by
  induction l with
  | nil => exact absurd hc (by rw [dictContains]; exact fun hcon => Bool.noConfusion hcon)
  | cons kv rest ih =>
    rw [List.map_cons, List.nodup_cons] at hn
    rw [dictContains, List.any_cons, Bool.or_eq_true] at hc
    by_cases he : kv.1 = k
    · have hrest : dictContains rest k = false := by
        rw [dictContains]
        rw [List.any_eq_false]
        intro x hx
        simp only [decide_eq_true_eq]
        intro hxk
        exact hn.1 (he ▸ hxk ▸ List.mem_map_of_mem Prod.fst hx)
      rw [countKey, List.filter_cons, if_pos (by simp [he])]
      rw [List.length_cons]
      have h0 := countKey_eq_zero rest k hrest
      rw [countKey] at h0
      rw [h0]
    · have hrest : dictContains rest k = true := by
        rcases hc with hc1 | hc2
        · exact absurd (of_decide_eq_true hc1) he
        · exact hc2
      rw [countKey, List.filter_cons, if_neg (by simp [he])]
      exact ih hn.2 hrest

/-- C8: starting a configured device twice in sequence, with the listener
start succeeding, returns success both times and leaves exactly one active
session registered for that device. -/
theorem C8_start_twice :
    ∀ (st : MMState) (name : PyStr),
      (st.active_listeners.map Prod.fst).Nodup →
      st.machine_records.any (fun n => n = name) = true →
      (start_machine st name true).1 = true ∧
      (start_machine (start_machine st name true).2 name true).1 = true ∧
      countKey
        (start_machine (start_machine st name true).2 name true).2.active_listeners
        name = 1 := by
  intro st name hn hr
  by_cases hc : dictContains st.active_listeners name = true
  · have h1 : start_machine st name true = (true, st) := by
      unfold start_machine
      rw [if_neg (fun hcon => hcon hr), if_pos hc]
    refine ⟨by rw [h1], by rw [h1, h1], ?_⟩
    rw [h1, h1]
    exact countKey_eq_one_of_nodup st.active_listeners name hn hc
  · have hcf : dictContains st.active_listeners name = false := by
      cases hdc : dictContains st.active_listeners name
      · rfl
      · exact absurd hdc hc
    have h1 : start_machine st name true = (true,
        { st with
          listener_status := dictInsert st.listener_status name (pystr "Starting"),
          active_listeners := st.active_listeners ++ [(name, st.next_handle)],
          next_handle := st.next_handle + 1 }) := by
      unfold start_machine
      rw [if_neg (fun hcon => hcon hr), if_neg hc]
      rfl
    have h2 : start_machine
        { st with
          listener_status := dictInsert st.listener_status name (pystr "Starting"),
          active_listeners := st.active_listeners ++ [(name, st.next_handle)],
          next_handle := st.next_handle + 1 } name true = (true,
        { st with
          listener_status := dictInsert st.listener_status name (pystr "Starting"),
          active_listeners := st.active_listeners ++ [(name, st.next_handle)],
          next_handle := st.next_handle + 1 }) := by
      unfold start_machine
      rw [if_neg (fun hcon => hcon hr)]
      rw [if_pos (by
        show dictContains (st.active_listeners ++ [(name, st.next_handle)]) name = true
        rw [dictContains, List.any_append]
        simp)]
    rw [h1]
    refine ⟨rfl, ?_, ?_⟩
    · show (start_machine
        { st with
          listener_status := dictInsert st.listener_status name (pystr "Starting"),
          active_listeners := st.active_listeners ++ [(name, st.next_handle)],
          next_handle := st.next_handle + 1 } name true).1 = true
      rw [h2]
    · show countKey (start_machine
        { st with
          listener_status := dictInsert st.listener_status name (pystr "Starting"),
          active_listeners := st.active_listeners ++ [(name, st.next_handle)],
          next_handle := st.next_handle + 1 } name true).2.active_listeners name = 1
      rw [h2]
      show countKey (st.active_listeners ++ [(name, st.next_handle)]) name = 1
      rw [countKey_append, countKey_eq_zero st.active_listeners name hcf]
      simp [countKey]

/-- Witness for C8 at a concrete one-device registry with no session. -/
theorem C8_start_twice_witness :
    (start_machine ⟨[pystr "dev1"], [], [], 0⟩ (pystr "dev1") true).1 = true ∧
    (start_machine (start_machine ⟨[pystr "dev1"], [], [], 0⟩ (pystr "dev1") true).2
      (pystr "dev1") true).1 = true ∧
    countKey
      (start_machine (start_machine ⟨[pystr "dev1"], [], [], 0⟩ (pystr "dev1") true).2
        (pystr "dev1") true).2.active_listeners
      (pystr "dev1") = 1 :=
  C8_start_twice ⟨[pystr "dev1"], [], [], 0⟩ (pystr "dev1") (by decide) (by decide)

/-- C5: the protocol detector classifies by cases — HL7 when the cleaned
text starts with `MSH|`, else ASTM when some cleaned line (whitespace
stripped, frame-sequence digits stripped) starts with one of the segment
tokens, else UNKNOWN.  The embedded function is total, reflecting that the
Python function catches every exception and classifies malformed input as
UNKNOWN. -/
theorem C5_detect_protocol_cases :
    ∀ text : PyStr,
      ((pystr "MSH|").isPrefixOf (detectCleaned text) = true →
        detect_protocol text = Protocol.HL7) ∧
      ((pystr "MSH|").isPrefixOf (detectCleaned text) = false →
        (splitlines (detectCleaned text)).any detectLineIsAstm = true →
        detect_protocol text = Protocol.ASTM) ∧
      ((pystr "MSH|").isPrefixOf (detectCleaned text) = false →
        (splitlines (detectCleaned text)).any detectLineIsAstm = false →
        detect_protocol text = Protocol.UNKNOWN) := by
  intro text
  refine ⟨fun h1 => ?_, fun h1 h2 => ?_, fun h1 h2 => ?_⟩ <;>
    simp only [detect_protocol]
  · rw [if_pos h1]
  · rw [if_neg (by simp [h1]), if_pos h2]
  · rw [if_neg (by simp [h1]), if_neg (by simp [h2])]

/-- Witness for C5: one concrete input per branch of the classifier. -/
theorem C5_detect_protocol_witness :
    detect_protocol (pystr "MSH|^~\\&|LIS") = Protocol.HL7 ∧
    detect_protocol (pystr "\x021H|\\^&|\r\x17") = Protocol.ASTM ∧
    detect_protocol (pystr "no structure here") = Protocol.UNKNOWN :=
  ⟨(C5_detect_protocol_cases (pystr "MSH|^~\\&|LIS")).1 (by decide),
   (C5_detect_protocol_cases (pystr "\x021H|\\^&|\r\x17")).2.1 (by decide) (by decide),
   (C5_detect_protocol_cases (pystr "no structure here")).2.2 (by decide) (by decide)⟩

theorem emitResult_ok (machine_id : PyStr) (param_map : ParamMap)
    (sample_id raw_code result : PyStr) (r : NormalizedResult)
    (h : r ∈ emitResult machine_id param_map sample_id raw_code result) :
    ResultOk param_map r := by
  unfold emitResult at h
  split at h
  · rename_i pc hd
    split at h
    · rename_i hcond
      rw [List.mem_singleton] at h
      subst h
      exact ⟨hcond.2.1, hcond.2.2, ⟨ _normalize_code raw_code, hd⟩⟩
    · exact absurd h (List.not_mem_nil r)
  · exact absurd h (List.not_mem_nil r)

theorem hl7Lines_ok (machine_id : PyStr) (param_map : ParamMap) :
    ∀ (lines : List PyStr) (sid : PyStr) (r : NormalizedResult),
      r ∈ hl7Lines machine_id param_map lines sid → ResultOk param_map r := by
  intro lines
  induction lines with
  | nil =>
    intro sid r h
    rw [hl7Lines] at h
    exact absurd h (List.not_mem_nil r)
  | cons line rest ih =>
    intro sid r h
    simp only [hl7Lines] at h
    rcases List.mem_append.mp h with h1 | h2
    · split at h1
      · exact emitResult_ok _ _ _ _ _ r h1
      · exact absurd h1 (List.not_mem_nil r)
    · exact ih _ r h2

theorem astmRecords_ok (machine_id : PyStr) (param_map : ParamMap) :
    ∀ (records : List PyStr) (sid : PyStr) (r : NormalizedResult),
      r ∈ astmRecords machine_id param_map records sid → ResultOk param_map r := by
  intro records
  induction records with
  | nil =>
    intro sid r h
    rw [astmRecords] at h
    exact absurd h (List.not_mem_nil r)
  | cons record rest ih =>
    intro sid r h
    simp only [astmRecords] at h
    split at h
    · exact ih _ r h
    · rcases List.mem_append.mp h with h1 | h2
      · split at h1
        · exact emitResult_ok _ _ _ _ _ r h1
        · exact absurd h1 (List.not_mem_nil r)
      · exact ih _ r h2

theorem plainEmit_ok (machine_id : PyStr) (param_map : ParamMap) (sid : PyStr)
    (hsid : sid ≠ []) :
    ∀ (buf : List PyStr) (r : NormalizedResult),
      r ∈ plainEmit machine_id param_map sid buf → ResultOk param_map r := by
  intro buf
  induction buf with
  | nil =>
    intro r h
    rw [plainEmit] at h
    exact absurd h (List.not_mem_nil r)
  | cons line rest ih =>
    intro r h
    simp only [plainEmit] at h
    split at h
    · exact ih r h
    · rename_i hlen
      split at h
      · exact ih r h
      · rename_i hcv
        split at h
        · rename_i pc hd
          split at h
          · rename_i hpc
            rcases List.mem_cons.mp h with h1 | h2
            · subst h1
              exact ⟨hsid, fun hv => hcv (Or.inr hv), ⟨_, hd⟩⟩
            · exact ih r h2
          · exact ih r h
        · exact ih r h

theorem plain_text_ok (machine_id : PyStr) (param_map : ParamMap)
    (records : List PyStr) (r : NormalizedResult)
    (h : r ∈ _parse_plain_text records machine_id param_map) :
    ResultOk param_map r := by
  simp only [_parse_plain_text] at h
  split at h
  · exact absurd h (List.not_mem_nil r)
  · rename_i hsid
    exact plainEmit_ok _ _ _ hsid _ r h

/-- C3: in every grammar — line-delimited (`parse_hl7`), segment-framed
(`parse_astm`), plain-text fallback (`_parse_plain_text`) — and hence in
the dispatching `parse_message`, every emitted NormalizedResult has a
non-empty sample id, a non-empty result string, and a parameter code that
is the value of a successful ParamMap lookup. -/
theorem C3_emission_invariant :
    ∀ (machine_id : PyStr) (param_map : ParamMap),
      (∀ text r, r ∈ parse_hl7 text machine_id param_map → ResultOk param_map r) ∧
      (∀ text r, r ∈ parse_astm text machine_id param_map → ResultOk param_map r) ∧
      (∀ records r, r ∈ _parse_plain_text records machine_id param_map →
        ResultOk param_map r) ∧
      (∀ text r, r ∈ parse_message text machine_id param_map →
        ResultOk param_map r) := by
  intro machine_id param_map
  have hhl7 : ∀ text r, r ∈ parse_hl7 text machine_id param_map →
      ResultOk param_map r := by
    intro text r h
    exact hl7Lines_ok machine_id param_map _ _ r h
  have hastm : ∀ text r, r ∈ parse_astm text machine_id param_map →
      ResultOk param_map r := by
    intro text r h
    simp only [parse_astm] at h
    split at h
    · exact astmRecords_ok machine_id param_map _ _ r h
    · exact plain_text_ok machine_id param_map _ r h
  refine ⟨hhl7, hastm, fun records r h => plain_text_ok _ _ records r h, ?_⟩
  intro text r h
  rw [parse_message] at h
  cases hdp : detect_protocol text with
  | HL7 => rw [hdp] at h; exact hhl7 text r h
  | ASTM => rw [hdp] at h; exact hastm text r h
  | UNKNOWN => rw [hdp] at h; exact absurd h (List.not_mem_nil r)

/-- Witness for C3: the single result of a concrete segment-framed message
satisfies the emission invariant. -/
theorem C3_emission_invariant_witness :
    ResultOk [(pystr "wbc", pystr "WBC_LIS")]
      { sample_id := pystr "778", parameter_code := pystr "WBC_LIS",
        result := pystr "5.6", machine_id := pystr "M1" } :=
  (C3_emission_invariant (pystr "M1") [(pystr "wbc", pystr "WBC_LIS")]).2.2.2
    (pystr "O|1|778||WBC\rR|1|WBC|5.6")
    { sample_id := pystr "778", parameter_code := pystr "WBC_LIS",
      result := pystr "5.6", machine_id := pystr "M1" }
    (by decide)

theorem any_dropWhile_of_imp (p q : Nat → Bool)
    (hpq : ∀ c, q c = true → p c = false) :
    ∀ l : PyStr, (l.dropWhile q).any p = l.any p := by
  intro l
  induction l with
  | nil => rfl
  | cons c rest ih =>
    rw [List.dropWhile_cons]
    by_cases hq : q c = true
    · rw [if_pos hq, ih, List.any_cons, hpq c hq, Bool.false_or]
    · rw [if_neg hq]

theorem any_dropRightWhile_of_imp (p q : Nat → Bool)
    (hpq : ∀ c, q c = true → p c = false) (l : PyStr) :
    (dropRightWhile q l).any p = l.any p := by
  rw [dropRightWhile, List.any_reverse, any_dropWhile_of_imp p q hpq,
    List.any_reverse]

theorem trimNonAlnum_any_alpha (s : PyStr) :
    (trimNonAlnum s).any isAlphaB = s.any isAlphaB := by
  have himp : ∀ c, (¬ isAlnumB c : Bool) = true → isAlphaB c = false := by
    intro c hc
    rw [decide_eq_true_eq] at hc
    cases ha : isAlphaB c
    · rfl
    · exact absurd (by rw [isAlnumB, ha, Bool.true_or]) hc
  rw [trimNonAlnum, any_dropRightWhile_of_imp _ _ himp,
    any_dropWhile_of_imp _ _ himp]

theorem find?_congrPred (p q : PyStr → Bool) (hpq : ∀ a, p a = q a) :
    ∀ l : List PyStr, l.find? p = l.find? q := by
  intro l
  induction l with
  | nil => rfl
  | cons a rest ih =>
    rw [List.find?_cons, List.find?_cons, hpq a]
    cases q a
    · exact ih
    · rfl

/-- C4: the normalizer maps empty input to the empty string; when some
non-empty caret-separated component contains a letter it returns the first
such component, lowercased and trimmed of non-alphanumeric edges; when
components exist but none contains a letter it falls back to the trimmed,
lowercased last component; and on `^^WBC^^conc` it returns `wbc`. -/
theorem C4_normalize_code_cases :
    ( _normalize_code [] = [] ∧
      _normalize_code (pystr "^^WBC^^conc") = pystr "wbc") ∧
    (∀ raw part,
      ((splitOn 94 raw).filter (fun p => p ≠ [])).find?
          (fun p => p.any isAlphaB) = some part →
      _normalize_code raw = pylower (pystrip (trimNonAlnum part))) ∧
    (∀ raw,
      ((splitOn 94 raw).filter (fun p => p ≠ [])) ≠ [] →
      ((splitOn 94 raw).filter (fun p => p ≠ [])).find?
          (fun p => p.any isAlphaB) = none →
      _normalize_code raw =
        pylower (pystrip (trimNonAlnum
          (((splitOn 94 raw).filter (fun p => p ≠ [])).getLastD [])))) := by
  refine ⟨⟨by decide, by decide⟩, ?_, ?_⟩
  · intro raw part hfind
    have hfind' : ((splitOn 94 raw).filter (fun p => p ≠ [])).find?
        (fun p => (trimNonAlnum p).any isAlphaB) = some part := by
      rw [find?_congrPred _ _ (fun a => trimNonAlnum_any_alpha a)]
      exact hfind
    have hparts : ((splitOn 94 raw).filter (fun p => p ≠ [])) ≠ [] := by
      intro hnil
      rw [hnil] at hfind
      exact Option.noConfusion hfind
    have hraw : raw ≠ [] := by
      intro hnil
      subst hnil
      exact hparts (by decide)
    rw [ _normalize_code, if_neg hraw]
    simp only [if_neg hparts, hfind']
  · intro raw hparts hfind
    have hfind' : ((splitOn 94 raw).filter (fun p => p ≠ [])).find?
        (fun p => (trimNonAlnum p).any isAlphaB) = none := by
      rw [find?_congrPred _ _ (fun a => trimNonAlnum_any_alpha a)]
      exact hfind
    have hraw : raw ≠ [] := by
      intro hnil
      subst hnil
      exact hparts (by decide)
    rw [ _normalize_code, if_neg hraw]
    simp only [if_neg hparts, hfind']

/-- Witness for C4 at concrete inputs: a component with a letter is
preferred over an earlier purely numeric one, and the fallback picks the
last component. -/
theorem C4_normalize_code_witness :
    _normalize_code (pystr "12^ab") = pylower (pystrip (trimNonAlnum (pystr "ab"))) ∧
    _normalize_code (pystr "12^34") =
      pylower (pystrip (trimNonAlnum
        (((splitOn 94 (pystr "12^34")).filter (fun p => p ≠ [])).getLastD []))) :=
  ⟨(C4_normalize_code_cases).2.1 (pystr "12^ab") (pystr "ab") (by decide),
   (C4_normalize_code_cases).2.2 (pystr "12^34") (by decide) (by decide)⟩

theorem foldl_add_shift : ∀ (l : List Nat) (init : Nat),
    l.foldl (· + ·) init = init + l.foldl (· + ·) 0 := by
  intro l
  induction l with
  | nil => intro init; simp
  | cons d rest ih =>
    intro init
    rw [List.foldl_cons, List.foldl_cons, ih (init + d), ih (0 + d)]
    omega

theorem sumBytes_cons (c : Nat) (l : List Nat) :
    sumBytes (c :: l) = c + sumBytes l := by
  rw [sumBytes, sumBytes, List.foldl_cons, foldl_add_shift]
  omega

theorem asciiEncode_cons_small (d : Nat) (l : PyStr) (hd : d < 128) :
    asciiEncode (d :: l) = d :: asciiEncode l := by
  rw [asciiEncode, asciiEncode, List.filter_cons, if_pos (by simpa using hd)]

theorem buildFramesFrom_cons (seq : Nat) (text : PyStr) (hne : ¬ text = []) :
    buildFramesFrom seq text =
      ([2] ++ asciiEncode ((48 + seq % 8) :: text.take 240) ++ [3] ++
        _astm_checksum (asciiEncode ((48 + seq % 8) :: text.take 240)) ++ [13, 10]) ::
      buildFramesFrom (seq + 1) (text.drop 240) := by
  conv_lhs => rw [buildFramesFrom]
  rw [dif_neg hne]

theorem buildFramesFrom_mem :
    ∀ (n : Nat) (text : PyStr), text.length ≤ n →
    ∀ (seq : Nat) (frame : List Nat), frame ∈ buildFramesFrom seq text →
    ∃ j, frame = claimFrame (48 + (seq + j) % 8) ((text.drop (240 * j)).take 240) := by
  intro n
  induction n with
  | zero =>
    intro text hlen seq frame hmem
    have htext : text = [] := List.eq_nil_of_length_eq_zero (Nat.le_zero.mp hlen)
    subst htext
    rw [buildFramesFrom] at hmem
    exact absurd hmem (by simp)
  | succ m ih =>
    intro text hlen seq frame hmem
    by_cases hne : text = []
    · subst hne
      rw [buildFramesFrom] at hmem
      exact absurd hmem (by simp)
    · rw [buildFramesFrom_cons seq text hne] at hmem
      rcases List.mem_cons.mp hmem with h1 | h2
      · refine ⟨0, ?_⟩
        rw [h1, claimFrame]
        simp only [Nat.add_zero, Nat.mul_zero, List.drop_zero]
        have hsmall : 48 + seq % 8 < 128 := by
          have := Nat.mod_lt seq (by omega : 0 < 8)
          omega
        rw [asciiEncode_cons_small _ _ hsmall, _astm_checksum, sumBytes_cons]
        rfl
      · have hlen2 : (text.drop 240).length ≤ m := by
          rw [List.length_drop]
          have hpos : 0 < text.length := List.length_pos.mpr hne
          omega
        obtain ⟨j', hj'⟩ := ih (text.drop 240) hlen2 (seq + 1) frame h2
        refine ⟨j' + 1, ?_⟩
        rw [hj', List.drop_drop]
        have h8 : seq + 1 + j' = seq + (j' + 1) := by omega
        have h240 : 240 + 240 * j' = 240 * (j' + 1) := by ring
        rw [h8, h240]

/-- C2 (counterexample): for the payload `"A"` the emitted frame is
`STX '1' 'A' ETX '7' '2' CR LF` — its checksum `72` is the sum of the
sequence digit (0x31) and the chunk byte (0x41) modulo 256, whereas the
claimed layout, whose checksum also adds the ETX byte 0x03, would demand
the checksum `75`. -/
theorem C2_counterexample :
    _build_astm_frames (pystr "A") = [claimFrame 49 (pystr "A")] ∧
    _build_astm_frames (pystr "A") ≠ [specFrame 49 (pystr "A")] := by
  have hfr : _build_astm_frames (pystr "A") = [[2, 49, 65, 3, 55, 50, 13, 10]] := by
    simp [ _build_astm_frames, buildFramesFrom, asciiEncode, _astm_checksum,
      sumBytes, hexUpper2, hexDigitUpper, pystr]
  constructor
  · rw [hfr]; decide
  · rw [hfr]; decide

/-- C2 (amended): every outbound frame has the byte layout STX, one
sequence-digit byte `'0'+((1+k) mod 8)`, the ASCII-encoded chunk of 240
payload characters starting at offset 240·k, ETX, a two-character uppercase
hexadecimal checksum equal to the sum of the sequence-digit byte and the
chunk bytes (the ETX byte is not included) modulo 256, then CR LF. -/
theorem C2_frame_layout :
    ∀ (payload : PyStr) (frame : List Nat), frame ∈ _build_astm_frames payload →
    ∃ k, frame = claimFrame (48 + (1 + k) % 8)
      ((payload.drop (240 * k)).take 240) := by
  intro payload frame h
  exact buildFramesFrom_mem payload.length payload (Nat.le_refl _) 1 frame h

/-- Witness for C2 at the one-frame payload `"A"`. -/
theorem C2_frame_layout_witness :
    ∃ k, ([2, 49, 65, 3, 55, 50, 13, 10] : List Nat) =
      claimFrame (48 + (1 + k) % 8) (((pystr "A").drop (240 * k)).take 240) :=
  C2_frame_layout (pystr "A") [2, 49, 65, 3, 55, 50, 13, 10] (by
    have hfr : _build_astm_frames (pystr "A") = [[2, 49, 65, 3, 55, 50, 13, 10]] := by
      simp [ _build_astm_frames, buildFramesFrom, asciiEncode, _astm_checksum,
        sumBytes, hexUpper2, hexDigitUpper, pystr]
    rw [hfr]
    exact List.mem_singleton.mpr rfl)

theorem toLowerN_idem (c : Nat) : toLowerN (toLowerN c) = toLowerN c := by
  simp only [toLowerN]
  split_ifs <;> omega

theorem toLowerN_ne_94 (c : Nat) (h : c ≠ 94) : toLowerN c ≠ 94 := by
  simp only [toLowerN]
  split_ifs <;> omega

theorem isAlnumB_iff (c : Nat) :
    isAlnumB c = true ↔
      (65 ≤ c ∧ c ≤ 90) ∨ (97 ≤ c ∧ c ≤ 122) ∨ (48 ≤ c ∧ c ≤ 57) := by
  simp [isAlnumB, isAlphaB, isUpperB, isLowerB, isDigitB, Bool.or_eq_true,
    Bool.and_eq_true, decide_eq_true_eq]
  tauto

theorem isAlnumB_toLowerN (c : Nat) (h : isAlnumB c = true) :
    isAlnumB (toLowerN c) = true := by
  rw [isAlnumB_iff] at h ⊢
  simp only [toLowerN]
  split_ifs <;> omega

theorem isSpaceB_eq_false_of_alnum (c : Nat) (h : isAlnumB c = true) :
    isSpaceB c = false := by
  rw [isAlnumB_iff] at h
  cases hs : isSpaceB c
  · rfl
  · exfalso
    simp [isSpaceB, decide_eq_true_eq] at hs
    omega

theorem head?_dropWhile_not (p : Nat → Bool) :
    ∀ (l : PyStr) (c : Nat), (l.dropWhile p).head? = some c → p c = false := by
  intro l
  induction l with
  | nil => intro c h; exact absurd h (by simp)
  | cons a rest ih =>
    intro c h
    rw [List.dropWhile_cons] at h
    by_cases ha : p a = true
    · rw [if_pos ha] at h
      exact ih c h
    · rw [if_neg ha] at h
      rw [List.head?_cons, Option.some_inj] at h
      subst h
      exact Bool.eq_false_iff.mpr ha

theorem dropWhile_eq_self_of_head (p : Nat → Bool) (l : PyStr)
    (h : ∀ c, l.head? = some c → p c = false) : l.dropWhile p = l := by
  cases l with
  | nil => rfl
  | cons a rest =>
    rw [List.dropWhile_cons, if_neg (by rw [h a (by rfl)]; exact fun hc => Bool.noConfusion hc)]

theorem getLast?_dropRightWhile_not (p : Nat → Bool) (l : PyStr) (c : Nat)
    (h : (dropRightWhile p l).getLast? = some c) : p c = false := by
  rw [dropRightWhile, List.getLast?_reverse] at h
  exact head?_dropWhile_not p l.reverse c h

theorem dropRightWhile_eq_self_of_getLast (p : Nat → Bool) (l : PyStr)
    (h : ∀ c, l.getLast? = some c → p c = false) : dropRightWhile p l = l := by
  rw [dropRightWhile, dropWhile_eq_self_of_head p l.reverse
    (fun c hc => h c (by rw [← List.head?_reverse]; exact hc)), List.reverse_reverse]

theorem head?_dropRightWhile (p : Nat → Bool) (l : PyStr) (c : Nat)
    (h : (dropRightWhile p l).head? = some c) : l.head? = some c := by
  have hsplit : dropRightWhile p l ++ (l.reverse.takeWhile p).reverse = l := by
    rw [dropRightWhile, ← List.reverse_append, List.takeWhile_append_dropWhile,
      List.reverse_reverse]
  rw [← hsplit]
  cases hd : dropRightWhile p l with
  | nil => rw [hd] at h; exact absurd h (by simp)
  | cons a t =>
    rw [hd] at h
    rw [List.head?_cons, Option.some_inj] at h
    subst h
    rfl

theorem splitOnPred_ne_nil (p : Nat → Bool) (s : PyStr) : splitOnPred p s ≠ [] := by
  cases s with
  | nil => simp [splitOnPred]
  | cons c rest =>
    rw [splitOnPred]
    cases hr : splitOnPred p rest with
    | nil => simp only [hr]; split_ifs <;> simp
    | cons g gs => simp only [hr]; split_ifs <;> simp

theorem mem_splitOnPred_not (p : Nat → Bool) :
    ∀ (s : PyStr) (g : PyStr), g ∈ splitOnPred p s → ∀ c ∈ g, p c = false := by
  intro s
  induction s with
  | nil =>
    intro g hg c hc
    simp [splitOnPred] at hg
    subst hg
    exact absurd hc (List.not_mem_nil c)
  | cons a rest ih =>
    intro g hg c hc
    rw [splitOnPred] at hg
    cases hr : splitOnPred p rest with
    | nil => exact absurd hr (splitOnPred_ne_nil p rest)
    | cons g0 gs =>
      simp only [hr] at hg
      by_cases hp : p a = true
      · rw [if_pos hp] at hg
        rcases List.mem_cons.mp hg with h1 | h2
        · subst h1; exact absurd hc (List.not_mem_nil c)
        · exact ih g (by rw [hr]; exact h2) c hc
      · rw [if_neg hp] at hg
        rcases List.mem_cons.mp hg with h1 | h2
        · subst h1
          rcases List.mem_cons.mp hc with hc1 | hc2
          · subst hc1; exact Bool.eq_false_iff.mpr hp
          · exact ih g0 (by rw [hr]; exact List.mem_cons_self g0 gs) c hc2
        · exact ih g (by rw [hr]; exact List.mem_cons_of_mem g0 h2) c hc

theorem splitOnPred_eq_single (p : Nat → Bool) :
    ∀ s : PyStr, (∀ c ∈ s, p c = false) → splitOnPred p s = [s] := by
  intro s
  induction s with
  | nil => intro h; rfl
  | cons a rest ih =>
    intro h
    rw [splitOnPred]
    have hr : splitOnPred p rest = [rest] :=
      ih (fun c hc => h c (List.mem_cons_of_mem a hc))
    simp only [hr]
    rw [if_neg (by
      rw [h a (List.mem_cons_self a rest)]
      exact fun hc => Bool.noConfusion hc)]

theorem filter_splitOnPred_eq_nil (p : Nat → Bool) :
    ∀ s : PyStr, ((splitOnPred p s).filter (fun g => g ≠ [])) = [] →
    ∀ c ∈ s, p c = true := by
  intro s
  induction s with
  | nil => intro h c hc; exact absurd hc (List.not_mem_nil c)
  | cons a rest ih =>
    intro h c hc
    rw [splitOnPred] at h
    cases hr : splitOnPred p rest with
    | nil => exact absurd hr (splitOnPred_ne_nil p rest)
    | cons g0 gs =>
      simp only [hr] at h
      by_cases hp : p a = true
      · rw [if_pos hp, List.filter_cons, if_neg (by simp)] at h
        rcases List.mem_cons.mp hc with hc1 | hc2
        · subst hc1; exact hp
        · exact ih (by rw [hr]; exact h) c hc2
      · rw [if_neg hp, List.filter_cons, if_pos (by simp)] at h
        exact absurd h (by simp)

theorem dropWhile_eq_nil_of_all (p : Nat → Bool) :
    ∀ s : PyStr, (∀ c ∈ s, p c = true) → s.dropWhile p = [] := by
  intro s
  induction s with
  | nil => intro h; rfl
  | cons a rest ih =>
    intro h
    rw [List.dropWhile_cons, if_pos (h a (List.mem_cons_self a rest))]
    exact ih (fun c hc => h c (List.mem_cons_of_mem a hc))

theorem mem_of_mem_dropWhile (p : Nat → Bool) (l : PyStr) (c : Nat)
    (h : c ∈ l.dropWhile p) : c ∈ l :=
  (List.dropWhile_sublist p).subset h

theorem mem_of_mem_dropRightWhile (p : Nat → Bool) (l : PyStr) (c : Nat)
    (h : c ∈ dropRightWhile p l) : c ∈ l := by
  rw [dropRightWhile, List.mem_reverse] at h
  have hm := (List.dropWhile_sublist p).subset h
  rwa [List.mem_reverse] at hm

theorem getLastD_mem (l : List PyStr) (d : PyStr) (h : l ≠ []) :
    l.getLastD d ∈ l := by
  cases l with
  | nil => exact absurd rfl h
  | cons a t =>
    rw [List.getLastD_eq_getLast?,
      List.getLast?_eq_getLast (a :: t) (List.cons_ne_nil a t)]
    simp

theorem normBranch_shape (z : PyStr) (hz : ∀ c ∈ z, c ≠ 94) :
    pylower (pystrip (trimNonAlnum z)) = [] ∨
    (NormOutput (pylower (pystrip (trimNonAlnum z))) ∧
     pylower (pystrip (trimNonAlnum z)) ≠ []) := by
  by_cases ht : trimNonAlnum z = []
  · left; rw [ht]; rfl
  · right
    have hhead : ∀ c, (trimNonAlnum z).head? = some c → isAlnumB c = true := by
      intro c hc
      rw [trimNonAlnum] at hc
      have h1 := head?_dropRightWhile _ _ c hc
      have h2 := head?_dropWhile_not _ _ c h1
      simpa using h2
    have hlast : ∀ c, (trimNonAlnum z).getLast? = some c → isAlnumB c = true := by
      intro c hc
      rw [trimNonAlnum] at hc
      have h2 := getLast?_dropRightWhile_not _ _ c hc
      simpa using h2
    have hstrip : pystrip (trimNonAlnum z) = trimNonAlnum z := by
      rw [pystrip]
      rw [dropWhile_eq_self_of_head isSpaceB _
        (fun c hc => isSpaceB_eq_false_of_alnum c (hhead c hc))]
      exact dropRightWhile_eq_self_of_getLast isSpaceB _
        (fun c hc => isSpaceB_eq_false_of_alnum c (hlast c hc))
    rw [hstrip]
    constructor
    · refine ⟨?_, ?_, ?_, ?_⟩
      · intro c hcmem
        rw [pylower, List.mem_map] at hcmem
        obtain ⟨c0, hc0mem, hc0eq⟩ := hcmem
        have hc0z : c0 ∈ z := by
          rw [trimNonAlnum] at hc0mem
          exact mem_of_mem_dropWhile _ _ _ (mem_of_mem_dropRightWhile _ _ _ hc0mem)
        rw [← hc0eq]
        exact toLowerN_ne_94 c0 (hz c0 hc0z)
      · intro c hc
        rw [pylower, List.head?_map] at hc
        cases hh : (trimNonAlnum z).head? with
        | none => rw [hh] at hc; exact absurd hc (by simp)
        | some c0 =>
          rw [hh] at hc
          simp only [Option.map_some'] at hc
          rw [Option.some_inj] at hc
          rw [← hc]
          exact isAlnumB_toLowerN c0 (hhead c0 hh)
      · intro c hc
        rw [pylower, List.getLast?_map] at hc
        cases hh : (trimNonAlnum z).getLast? with
        | none => rw [hh] at hc; exact absurd hc (by simp)
        | some c0 =>
          rw [hh] at hc
          simp only [Option.map_some'] at hc
          rw [Option.some_inj] at hc
          rw [← hc]
          exact isAlnumB_toLowerN c0 (hlast c0 hh)
      · intro c hcmem
        rw [pylower, List.mem_map] at hcmem
        obtain ⟨c0, _, hc0eq⟩ := hcmem
        rw [← hc0eq]
        exact toLowerN_idem c0
    · rw [pylower]
      intro hmap
      exact ht (List.map_eq_nil_iff.mp hmap)

theorem norm_output_shape (raw : PyStr) :
    _normalize_code raw = [] ∨
    (NormOutput ( _normalize_code raw) ∧ _normalize_code raw ≠ []) := by
  by_cases hraw : raw = []
  · left; rw [hraw]; rfl
  · rw [ _normalize_code, if_neg hraw]
    by_cases hparts : (splitOn 94 raw).filter (fun p => p ≠ []) = []
    · simp only [if_pos hparts]
      left
      have hall : ∀ c ∈ raw, (fun c => (c = 94 : Bool)) c = true := by
        intro c hc
        exact filter_splitOnPred_eq_nil _ raw hparts c hc
      have htrim : trimNonAlnum raw = [] := by
        rw [trimNonAlnum]
        rw [dropWhile_eq_nil_of_all _ raw (fun c hc => by
          have h94 : c = 94 := by simpa using hall c hc
          subst h94
          decide)]
        rfl
      rw [htrim]
      rfl
    · cases hfind : ((splitOn 94 raw).filter (fun p => p ≠ [])).find?
          (fun p => (trimNonAlnum p).any isAlphaB) with
      | some part =>
        simp only [if_neg hparts, hfind]
        have hmem := List.mem_filter.mp (List.mem_of_find?_eq_some hfind)
        have hz : ∀ c ∈ part, c ≠ 94 := by
          intro c hc
          have hnot := mem_splitOnPred_not _ raw part hmem.1 c hc
          simpa using hnot
        exact normBranch_shape part hz
      | none =>
        simp only [if_neg hparts, hfind]
        have hlastmem := List.mem_filter.mp
          (getLastD_mem ((splitOn 94 raw).filter (fun p => p ≠ [])) [] hparts)
        have hz : ∀ c ∈ ((splitOn 94 raw).filter (fun p => p ≠ [])).getLastD [],
            c ≠ 94 := by
          intro c hc
          have hnot := mem_splitOnPred_not _ raw _ hlastmem.1 c hc
          simpa using hnot
        exact normBranch_shape _ hz

theorem norm_fixed (y : PyStr) (hy : NormOutput y) (hne : y ≠ []) :
    _normalize_code y = y := by
  obtain ⟨hno94, hhead, hlast, hfix⟩ := hy
  rw [ _normalize_code, if_neg hne]
  have hsplit : splitOn 94 y = [y] :=
    splitOnPred_eq_single _ y (fun c hc => decide_eq_false (hno94 c hc))
  have hfilter : (splitOn 94 y).filter (fun p => p ≠ []) = [y] := by
    rw [hsplit, List.filter_cons, if_pos (by simpa using hne)]
    rfl
  have hparts_ne : (splitOn 94 y).filter (fun p => p ≠ []) ≠ [] := by
    rw [hfilter]
    simp
  have htrim : trimNonAlnum y = y := by
    rw [trimNonAlnum]
    rw [dropWhile_eq_self_of_head _ y (fun c hc => by simpa using hhead c hc)]
    exact dropRightWhile_eq_self_of_getLast _ y (fun c hc => by simpa using hlast c hc)
  have hstrip : pystrip y = y := by
    rw [pystrip]
    rw [dropWhile_eq_self_of_head isSpaceB y
      (fun c hc => isSpaceB_eq_false_of_alnum c (hhead c hc))]
    exact dropRightWhile_eq_self_of_getLast isSpaceB y
      (fun c hc => isSpaceB_eq_false_of_alnum c (hlast c hc))
  have hlower : pylower y = y := by
    rw [pylower]
    have hmap : y.map toLowerN = y.map id := List.map_congr_left (fun c hc => hfix c hc)
    rw [hmap, List.map_id]
  cases hany : y.any isAlphaB with
  | true =>
    have hfind : ([y] : List PyStr).find?
        (fun p => (trimNonAlnum p).any isAlphaB) = some y := by
      rw [List.find?_cons]
      rw [htrim, hany]
    simp only [if_neg hparts_ne, hfilter, hfind]
    rw [htrim, hstrip, hlower]
    split_ifs <;> rfl
  | false =>
    have hfind : ([y] : List PyStr).find?
        (fun p => (trimNonAlnum p).any isAlphaB) = none := by
      rw [List.find?_cons]
      rw [htrim, hany]
      rfl
    simp only [if_neg hparts_ne, hfilter, hfind]
    have hlastd : ([y] : List PyStr).getLastD [] = y := rfl
    rw [hlastd, htrim, hstrip, hlower]
    split_ifs <;> rfl

/-- C10: code normalization is idempotent — `_normalize_code` applied to
its own output returns that output unchanged, so every canonicalized code
is a fixed point of normalization. -/
theorem C10_normalize_idempotent :
    ∀ raw : PyStr, _normalize_code ( _normalize_code raw) = _normalize_code raw := by
  intro raw
  rcases norm_output_shape raw with h | ⟨hshape, hne⟩
  · rw [h]
    decide
  · exact norm_fixed _ hshape hne

/-!
Concrete evaluations of the embedded functions, checked by the kernel.
-/

example : _normalize_code (pystr "^^WBC^^conc") = pystr "wbc" := by decide

example : _normalize_code (pystr "  WBC ") = pystr "wbc" := by decide

example : _normalize_code (pystr "778") = pystr "778" := by decide

example : _normalize_code (pystr "") = pystr "" := by decide

example : _normalize_code (pystr "^^^") = pystr "" := by decide

example : _normalize_code (pystr "12^34") = pystr "34" := by decide

example : splitlines (pystr "a\r\nb\rc\n") = [pystr "a", pystr "b", pystr "c"] := by decide

example : splitlines (pystr "") = [] := by decide

example : detect_protocol (pystr "MSH|^~\\&|x") = Protocol.HL7 := by decide

example : detect_protocol (pystr "\x021H|\\^&|\r") = Protocol.ASTM := by decide

example : detect_protocol (pystr "hello world") = Protocol.UNKNOWN := by decide

example : reSplitNewlines (pystr "a\r\n\rb") = [pystr "a", pystr "b"] := by decide

example : reSplitNewlines (pystr "\ra\r") = [pystr "", pystr "a", pystr ""] := by decide

example : plainSampleId (pystr "SAMPLEID: -778-A extra") = pystr "778-A" := by decide

example :
    parse_astm (pystr "O|1|778||WBC\rR|1|WBC|5.6") (pystr "M1")
      [(pystr "wbc", pystr "WBC_LIS")] =
    [{ sample_id := pystr "778", parameter_code := pystr "WBC_LIS",
       result := pystr "5.6", machine_id := pystr "M1" }] := by decide

example :
    parse_astm (pystr "O|1|778||WBC\rR|1|778|5.6") (pystr "M1")
      [(pystr "wbc", pystr "WBC_LIS")] = [] := by decide

example :
    parse_astm (pystr "SAMPLEID: 778\nWBC 5.6\n") (pystr "M1")
      [(pystr "wbc", pystr "WBC_LIS")] =
    [{ sample_id := pystr "778", parameter_code := pystr "WBC_LIS",
       result := pystr "5.6", machine_id := pystr "M1" }] := by decide

example :
    parse_message (pystr "O|1|778||WBC\rR|1|WBC|5.6") (pystr "M1")
      [(pystr "wbc", pystr "WBC_LIS")] =
    [{ sample_id := pystr "778", parameter_code := pystr "WBC_LIS",
       result := pystr "5.6", machine_id := pystr "M1" }] := by decide

example : _build_astm_frames (pystr "A") = [[2, 49, 65, 3, 55, 50, 13, 10]] := by
  simp [ _build_astm_frames, buildFramesFrom, asciiEncode, _astm_checksum,
    sumBytes, hexUpper2, hexDigitUpper, pystr]

example :
    get_param_map
      [⟨some (pystr "White cell count"), some (pystr "WBC")⟩,
       ⟨some (pystr "Haemoglobin value"), some (pystr "HGB")⟩] =
    [(pystr "wbc", pystr "white cell count"),
     (pystr "hgb", pystr "haemoglobin value")] := by decide
